import Mathlib

/-!
Formal model of the `port-scanner` Go program (`main.go`).

The repository holds three generations of the scanner; the final one
(ports-list version of `main.go`) is the authority for configuration,
worker, aggregation and summary behaviour, and the intermediate one
contributes the progress-monitor goroutine.  Pure data flow is embedded
directly; the effectful parts are embedded as follows:

* `net.DialTimeout` for one port is an environment-supplied stream
  `dial : Nat → DialOutcome` giving the outcome of the n-th attempt the
  program could make; the worker body performs exactly one call, so it
  consumes `dial 0` only.
* `conn.Read` into the 1024-byte buffer is modelled by the byte sequence
  the peer delivers, truncated to the buffer size.
* the task channel is modelled by the assignment of the port list to the
  workers: each port is delivered to exactly one worker, so a scheduling
  of `N` workers is a list of `N` port lists whose concatenation is a
  permutation of the port list.
* the result channel and the mutex-guarded `progress` counter are
  modelled by event traces (`Ev`) interleaved by an arbitrary scheduler.
-/

/-- Mirrors the Go struct `ScanResult` of `main.go`: the `banner` field is a
Go string with `omitempty`, so the empty string is the absent banner. -/
structure ScanResult where
  Target : String
  Port   : Nat
  Open   : Bool
  Banner : String
  deriving Repr, DecidableEq

/-- Mirrors the Go struct `ScanSummary` of `main.go` (the wall-clock
`TimeTaken` string is not modelled). -/
structure ScanSummary where
  Targets        : List String
  OpenPorts      : Nat
  TotalPorts     : Nat
  Workers        : Nat
  TimeoutSeconds : Nat
  deriving Repr, DecidableEq

/-- The failure kinds a `net.DialTimeout` call can report.  The worker never
inspects the error value, so the embedding keeps them abstract. -/
inductive DialErr where
  | refused
  | timedOut
  | unreachable
  | dnsFailure
  deriving Repr, DecidableEq

/-- Outcome of one dial attempt: an established connection together with the
bytes the peer will deliver to a single read, or an error. -/
inductive DialOutcome where
  | ok  (delivered : List Char)
  | err (e : DialErr)
  deriving Repr, DecidableEq

/-- Whether a dial outcome is an established connection. -/
def dialOk : DialOutcome → Bool
  | DialOutcome.ok _  => true
  | DialOutcome.err _ => false

/-- Go `unicode.IsSpace`, the predicate `strings.TrimSpace` trims by:
tab through carriage return, space, NEL, NBSP and the Unicode space
code points. -/
def isGoSpace (c : Char) : Bool :=
  decide ((9 ≤ c.toNat ∧ c.toNat ≤ 13) ∨ c.toNat = 32 ∨ c.toNat = 133 ∨
    c.toNat = 160 ∨ c.toNat = 5760 ∨ (8192 ≤ c.toNat ∧ c.toNat ≤ 8202) ∨
    c.toNat = 8232 ∨ c.toNat = 8233 ∨ c.toNat = 8239 ∨ c.toNat = 8287 ∨
    c.toNat = 12288)

/-- Go `strings.TrimSpace` on the underlying character list: drop leading and
trailing white space. -/
def trimSpaceList (cs : List Char) : List Char :=
  ((cs.dropWhile isGoSpace).reverse.dropWhile isGoSpace).reverse

/-- Go `strings.TrimSpace`. -/
def trimSpace (s : String) : String :=
  String.mk (trimSpaceList s.data)

/-- Trace of the banner-grab block of the worker (lines 38-44 of `main.go`):
the read deadline that was set, how many reads were issued, the banner
recorded, and whether the connection was closed afterwards. -/
structure BannerStep where
  deadline  : Nat
  readCount : Nat
  banner    : String
  closed    : Bool
  deriving Repr, DecidableEq

/-- The banner-grab block executed on an open connection:
`conn.SetReadDeadline(time.Now().Add(timeout))`, one `conn.Read` into a
1024-byte buffer, `result.Banner = strings.TrimSpace(string(banner[:n]))`
when `n > 0`, then `conn.Close()`.  `delivered` is the byte sequence the
peer makes available to the read. -/
def bannerGrab (timeout : Nat) (delivered : List Char) : BannerStep :=
  let buf := delivered.take 1024
  { deadline  := timeout
    readCount := 1
    banner    := if buf.length > 0 then trimSpace (String.mk buf) else ""
    closed    := true }

/-- One iteration of the worker loop body for a single port (lines 33-45 of
`main.go`): dial once; on success mark the port open, grab the banner and
close the connection; on any error leave the zero-valued result
(`Open = false`, empty banner).  `dial n` is the outcome the environment
would give the n-th dial attempt; the code dials exactly once. -/
def scanPort (timeout : Nat) (dial : Nat → DialOutcome) (target : String)
    (port : Nat) : ScanResult :=
  match dial 0 with
  | DialOutcome.ok delivered =>
      { Target := target, Port := port, Open := true,
        Banner := (bannerGrab timeout delivered).banner }
  | DialOutcome.err _ =>
      { Target := target, Port := port, Open := false, Banner := "" }

/-- Value of a all-digit character list read in base 10. -/
def digitsVal (ds : List Char) : Nat :=
  ds.foldl (fun a c => a * 10 + (c.toNat - 48)) 0

/-- Go `strconv.Atoi`: optional sign, then decimal digits only; empty input,
stray characters and 64-bit overflow are errors (`none`). -/
def goAtoi (s : String) : Option Int :=
  match s.data with
  | [] => none
  | c :: r =>
    let p : Bool × List Char :=
      if c = '+' then (false, r)
      else if c = '-' then (true, r)
      else (false, c :: r)
    if p.2 = [] then none
    else if p.2.all Char.isDigit then
      let v : Int := if p.1 then -(digitsVal p.2 : Int) else (digitsVal p.2 : Int)
      if v < -(2 ^ 63) ∨ (2 ^ 63 - 1 : Int) < v then none else some v
    else none

/-- The `-ports` token loop of the final `main.go` (lines 76-88): for each
token, `strconv.Atoi`; on parse error skip the token; when the parsed value
fails the bound check `port < 1 || port > 102` skip it; otherwise append it
to `portsToScan`.  The upper bound really is `102` in the source even though
the error message printed there says `(1-65535)`. -/
def parsePortTokens (toks : List String) : List Int :=
  toks.foldl
    (fun acc p =>
      match goAtoi p with
      | none => acc
      | some port => if port < 1 ∨ port > 102 then acc else acc ++ [port])
    []

/-- One worker's whole run for the current target (lines 30-51 of `main.go`):
it drains the ports the task channel delivers to it, producing one
`ScanResult` per port, in order.  `net target port` is the dial-attempt
stream for that target and port. -/
def workerRun (timeout : Nat) (net : String → Nat → Nat → DialOutcome)
    (target : String) (ports : List Nat) : List ScanResult :=
  ports.map (fun p => scanPort timeout (net target p) target p)

/-- All results the worker pool publishes on the result channel for one
target, given the assignment of ports to the workers made by the task
channel (each port goes to exactly one worker). -/
def targetResults (timeout : Nat) (net : String → Nat → Nat → DialOutcome)
    (target : String) (assignment : List (List Nat)) : List ScanResult :=
  (assignment.map (workerRun timeout net target)).flatten

/-- The result-collection loop of the final `main.go` (lines 128-134): read
every published result; count the open ones into the running `openPorts`
tally and append them to the accumulated result list; drop closed ones. -/
def collectOpen (st : Nat × List ScanResult) (rs : List ScanResult) :
    Nat × List ScanResult :=
  rs.foldl (fun st r => if r.Open then (st.1 + 1, st.2 ++ [r]) else st) st

/-- The per-target loop and summary assembly of the final `main.go`
(lines 99-148): scan each target in sequence with a fresh pool, folding the
open counts and open results into the globals, then build the
`ScanSummary` with `TotalPorts := len(portsToScan)`.  `assign target` is
the port-to-worker assignment the task channel realises for that target. -/
def runScan (workers timeout : Nat) (targetsToScan : List String)
    (portsToScan : List Nat) (net : String → Nat → Nat → DialOutcome)
    (assign : String → List (List Nat)) : List ScanResult × ScanSummary :=
  let st := targetsToScan.foldl
    (fun st target =>
      collectOpen st (targetResults timeout net target (assign target)))
    (0, [])
  (st.2,
   { Targets := targetsToScan, OpenPorts := st.1,
     TotalPorts := portsToScan.length, Workers := workers,
     TimeoutSeconds := timeout })

/-- The progress-monitor goroutine of the intermediate `main.go`
(lines 264-275): each iteration locks the mutex, samples `progress`,
unlocks, reports, and returns as soon as the sample reaches `total`,
otherwise sleeps and loops.  `f i` is the value the i-th sample reads from
the mutex-guarded counter; `fuel` bounds the unrolling of the unbounded
loop; the value returned is the index of the sample the loop stopped at. -/
def trackerLoop (total : Nat) (f : Nat → Nat) : Nat → Nat → Option Nat
  | 0, _ => none
  | fuel + 1, i => if total ≤ f i then some i else trackerLoop total f fuel (i + 1)

/-- Events a worker performs on the shared state, per task: `pub` is sending
the result on the result channel (line 46 of `main.go`), `inc` is the
mutex-guarded `progress++` (lines 47-49). -/
inductive Ev where
  | pub
  | inc
  deriving Repr, DecidableEq

/-- Event trace of one worker that handles `n` ports: for each port it
publishes the result and then increments the counter. -/
def evBlocks : Nat → List Ev
  | 0 => []
  | n + 1 => Ev.pub :: Ev.inc :: evBlocks n

/-- Event trace of a worker for the port list the task channel hands it. -/
def workerEvents (ports : List Nat) : List Ev :=
  evBlocks ports.length

/-- Interleaving semantics of the worker pool: a scheduler step names a
worker; if that worker still has events pending, its next event executes.
`runSched seqs sched` is the global trace of shared-state events produced
under schedule `sched` from the workers' pending event lists `seqs`. -/
def runSched : List (List Ev) → List Nat → List Ev
  | _, [] => []
  | seqs, i :: rest =>
    match seqs.get? i with
    | some (e :: s) => e :: runSched (seqs.set i s) rest
    | _ => runSched seqs rest

/-- The workers' pending event lists remaining after running a schedule. -/
def stepSched : List (List Ev) → List Nat → List (List Ev)
  | seqs, [] => seqs
  | seqs, i :: rest =>
    match seqs.get? i with
    | some (_ :: s) => stepSched (seqs.set i s) rest
    | _ => stepSched seqs rest

/-- A worker's pending event list is well formed when it is a whole block
list, or a block list with one increment still owed for an already
published result. -/
def wfRem (s : List Ev) : Prop :=
  (∃ n, s = evBlocks n) ∨ (∃ n, s = Ev.inc :: evBlocks n)

/-- Whether a pending event list owes an increment for a result already
published. -/
def isPend : List Ev → Bool
  | Ev.inc :: _ => true
  | _ => false

/-- Number of workers that have published a result but not yet incremented
the counter. -/
def pendCount (seqs : List (List Ev)) : Nat :=
  (seqs.map (fun s => if isPend s then 1 else 0)).sum

lemma scanPort_Port (timeout : Nat) (dial : Nat → DialOutcome)
    (target : String) (port : Nat) :
    (scanPort timeout dial target port).Port = port := by
  cases h : dial 0 <;> simp [scanPort, h]

lemma scanPort_Open (timeout : Nat) (dial : Nat → DialOutcome)
    (target : String) (port : Nat) :
    (scanPort timeout dial target port).Open = dialOk (dial 0) := by
  cases h : dial 0 <;> simp [scanPort, dialOk, h]

/-- C1: the claim reads: every `-ports` token is accepted and delivered to the
engine exactly when it parses as an integer in `[1,65535]`.  The code instead
bounds accepted ports by `102` (line 83 of `main.go`), contradicting the
error message it prints and the README example `-ports "22,80,443,8080"`:
the valid tokens `443` and `8080` are dropped. -/
theorem ports_flag_drops_valid_tokens :
    parsePortTokens ["22", "80", "443", "8080"] = [22, 80] ∧
    goAtoi "443" = some 443 ∧
    (1 : Int) ≤ 443 ∧ (443 : Int) ≤ 65535 := by decide

/-- C4: a result the worker records as not open carries the absent banner
(the empty Go string), and a non-absent banner implies the result is open. -/
theorem closed_result_has_absent_banner (timeout : Nat)
    (dial : Nat → DialOutcome) (target : String) (port : Nat) :
    ((scanPort timeout dial target port).Open = false →
      (scanPort timeout dial target port).Banner = "") ∧
    ((scanPort timeout dial target port).Banner ≠ "" →
      (scanPort timeout dial target port).Open = true) := by
  cases h : dial 0 <;> simp [scanPort, h]

theorem closed_result_has_absent_banner_witness :
    (scanPort 1 (fun _ => DialOutcome.err DialErr.refused) "localhost" 9999).Banner = "" :=
  (closed_result_has_absent_banner 1 (fun _ => DialOutcome.err DialErr.refused)
    "localhost" 9999).1 (by decide)

/-- C5: when the single dial attempt errors, the worker records the port as
closed with no banner; the result is one fixed record, independent of which
failure kind occurred and of what any further attempt (`dial 1`, ...) would
have returned, so no distinct error is surfaced and no retry happens. -/
theorem dial_error_yields_closed_result (timeout : Nat)
    (dial : Nat → DialOutcome) (target : String) (port : Nat) (e : DialErr)
    (h : dial 0 = DialOutcome.err e) :
    scanPort timeout dial target port =
      { Target := target, Port := port, Open := false, Banner := "" } := by
  simp [scanPort, h]

theorem dial_error_yields_closed_result_witness :
    scanPort 1
        (fun n => if n = 0 then DialOutcome.err DialErr.timedOut
                  else DialOutcome.ok ['H'])
        "localhost" 80 =
      { Target := "localhost", Port := 80, Open := false, Banner := "" } :=
  dial_error_yields_closed_result 1 _ "localhost" 80 DialErr.timedOut rfl

/-- C8: on an open connection the worker sets the read deadline to the
configured timeout, performs exactly one read into the 1024-byte buffer,
closes the connection regardless of outcome, and records as banner the
delivered bytes (truncated to the buffer) trimmed of surrounding white
space, or the absent banner when the read yields zero bytes (which is how
an erroring read manifests, since the read error itself is discarded). -/
theorem banner_grab_one_read_trimmed (timeout : Nat) (delivered : List Char)
    (dial : Nat → DialOutcome) (target : String) (port : Nat)
    (h : dial 0 = DialOutcome.ok delivered) :
    (bannerGrab timeout delivered).deadline = timeout ∧
    (bannerGrab timeout delivered).readCount = 1 ∧
    (bannerGrab timeout delivered).closed = true ∧
    (scanPort timeout dial target port).Open = true ∧
    (scanPort timeout dial target port).Banner =
      (if (delivered.take 1024).length > 0
        then trimSpace (String.mk (delivered.take 1024)) else "") := by
  refine ⟨rfl, rfl, rfl, ?_, ?_⟩ <;> simp [scanPort, h, bannerGrab]

theorem banner_grab_one_read_trimmed_witness :
    (bannerGrab 1 ("HELLO\n".data)).deadline = 1 ∧
    (bannerGrab 1 ("HELLO\n".data)).readCount = 1 ∧
    (bannerGrab 1 ("HELLO\n".data)).closed = true ∧
    (scanPort 1 (fun _ => DialOutcome.ok ("HELLO\n".data)) "localhost" 7000).Open = true ∧
    (scanPort 1 (fun _ => DialOutcome.ok ("HELLO\n".data)) "localhost" 7000).Banner = "HELLO" := by
  have h := banner_grab_one_read_trimmed 1 ("HELLO\n".data)
    (fun _ => DialOutcome.ok ("HELLO\n".data)) "localhost" 7000 rfl
  exact ⟨h.1, h.2.1, h.2.2.1, h.2.2.2.1, h.2.2.2.2.trans (by decide)⟩

lemma workerRun_map_port (timeout : Nat) (net : String → Nat → Nat → DialOutcome)
    (target : String) (ps : List Nat) :
    (workerRun timeout net target ps).map ScanResult.Port = ps := by
  simp [workerRun, List.map_map, Function.comp_def, scanPort_Port]

lemma targetResults_map_port (timeout : Nat) (net : String → Nat → Nat → DialOutcome)
    (target : String) (A : List (List Nat)) :
    (targetResults timeout net target A).map ScanResult.Port = A.flatten := by
  simp [targetResults, List.map_flatten, List.map_map, Function.comp_def,
    workerRun_map_port]

/-- C2: for any worker count of at least one and any way the task channel can
distribute the port list over the workers (each port delivered to exactly one
worker), the pool publishes exactly one result per port of the list: the
result count equals the port count, and the results' ports are exactly the
ports of the list, none dropped, none duplicated. -/
theorem scan_emits_exactly_one_result_per_port (timeout N : Nat)
    (net : String → Nat → Nat → DialOutcome) (target : String)
    (ports : List Nat) (assignment : List (List Nat))
    (hN : 1 ≤ N) (hlen : assignment.length = N)
    (hperm : assignment.flatten.Perm ports) :
    (targetResults timeout net target assignment).length = ports.length ∧
    ((targetResults timeout net target assignment).map ScanResult.Port).Perm ports := by
  have hmap := targetResults_map_port timeout net target assignment
  constructor
  · calc (targetResults timeout net target assignment).length
        = ((targetResults timeout net target assignment).map ScanResult.Port).length :=
          (List.length_map _ _).symm
      _ = assignment.flatten.length := by rw [hmap]
      _ = ports.length := hperm.length_eq
  · rw [hmap]; exact hperm

theorem scan_emits_exactly_one_result_per_port_witness :
    (targetResults 1 (fun _ _ _ => DialOutcome.err DialErr.refused) "h"
      [[1, 3], [2]]).length = 3 ∧
    ((targetResults 1 (fun _ _ _ => DialOutcome.err DialErr.refused) "h"
      [[1, 3], [2]]).map ScanResult.Port).Perm [1, 2, 3] :=
  scan_emits_exactly_one_result_per_port 1 2 _ "h" [1, 2, 3] [[1, 3], [2]]
    (by decide) (by decide) (by decide)

lemma workerRun_open_ports (timeout : Nat) (net : String → Nat → Nat → DialOutcome)
    (target : String) (ps : List Nat) :
    ((workerRun timeout net target ps).filter (fun r => r.Open)).map ScanResult.Port =
      ps.filter (fun p => dialOk (net target p 0)) := by
  induction ps with
  | nil => rfl
  | cons p ps ih =>
    simp only [workerRun, List.map_cons, List.filter_cons] at *
    rw [scanPort_Open]
    cases h : dialOk (net target p 0) <;> simp [h, scanPort_Port, ih]

lemma targetResults_open_ports (timeout : Nat) (net : String → Nat → Nat → DialOutcome)
    (target : String) (A : List (List Nat)) :
    ((targetResults timeout net target A).filter (fun r => r.Open)).map ScanResult.Port =
      A.flatten.filter (fun p => dialOk (net target p 0)) := by
  simp [targetResults, List.filter_flatten, List.map_flatten, List.map_map,
    Function.comp_def, workerRun_open_ports]

/-- C10: for one fixed target, port list and network behaviour, any two runs
of the pool — whatever their worker counts and however the task channel
distributes the ports — detect the same open ports: the open results' port
multisets are permutations of each other, so the set of open ports is the
same and only ordering can differ. -/
theorem open_port_set_independent_of_worker_count (timeout N₁ N₂ : Nat)
    (net : String → Nat → Nat → DialOutcome) (target : String)
    (ports : List Nat) (A₁ A₂ : List (List Nat))
    (h₁len : A₁.length = N₁) (h₂len : A₂.length = N₂)
    (h₁ : A₁.flatten.Perm ports) (h₂ : A₂.flatten.Perm ports) :
    (((targetResults timeout net target A₁).filter (fun r => r.Open)).map ScanResult.Port).Perm
      (((targetResults timeout net target A₂).filter (fun r => r.Open)).map ScanResult.Port) := by
  rw [targetResults_open_ports, targetResults_open_ports]
  exact (h₁.filter _).trans (h₂.filter _).symm

theorem open_port_set_independent_of_worker_count_witness :
    (((targetResults 1 (fun _ p _ => if p = 2 then DialOutcome.ok [] else DialOutcome.err DialErr.refused)
        "h" [[1, 2, 3]]).filter (fun r => r.Open)).map ScanResult.Port).Perm
      (((targetResults 1 (fun _ p _ => if p = 2 then DialOutcome.ok [] else DialOutcome.err DialErr.refused)
        "h" [[2], [3, 1]]).filter (fun r => r.Open)).map ScanResult.Port) :=
  open_port_set_independent_of_worker_count 1 1 2 _ "h" [1, 2, 3]
    [[1, 2, 3]] [[2], [3, 1]] rfl rfl (by decide) (by decide)

lemma targetResults_of_flatten_nil (timeout : Nat)
    (net : String → Nat → Nat → DialOutcome) (target : String)
    (A : List (List Nat)) (h : A.flatten = []) :
    targetResults timeout net target A = [] := by
  rw [targetResults, List.flatten_eq_nil_iff]
  intro l hl
  rw [List.mem_map] at hl
  obtain ⟨ps, hps, rfl⟩ := hl
  have hnil : ps = [] := (List.flatten_eq_nil_iff.mp h) ps hps
  subst hnil
  rfl

/-- C6: when the engine receives the empty port list, the scan of every
target hands the collector no results, and the run returns the empty result
list and a summary with zero total ports and zero open ports — a completed
scan, not an error. -/
theorem empty_port_list_gives_trivial_scan (workers timeout : Nat)
    (targetsToScan : List String) (net : String → Nat → Nat → DialOutcome)
    (assign : String → List (List Nat))
    (h : ∀ t ∈ targetsToScan, (assign t).flatten = []) :
    runScan workers timeout targetsToScan [] net assign =
      ([], { Targets := targetsToScan, OpenPorts := 0, TotalPorts := 0,
             Workers := workers, TimeoutSeconds := timeout }) := by
  have hs : ∀ (l : List String), (∀ t ∈ l, (assign t).flatten = []) →
      l.foldl (fun st target =>
        collectOpen st (targetResults timeout net target (assign target)))
        (0, []) = (0, []) := by
    intro l
    induction l with
    | nil => intro _; rfl
    | cons a l ih =>
      intro hl
      rw [List.foldl_cons,
        targetResults_of_flatten_nil timeout net a (assign a) (hl a (List.mem_cons_self a l))]
      exact ih (fun t ht => hl t (List.mem_cons_of_mem a ht))
  rw [runScan, hs targetsToScan h]
  rfl

theorem empty_port_list_gives_trivial_scan_witness :
    runScan 5 1 ["localhost"] [] (fun _ _ _ => DialOutcome.err DialErr.refused)
      (fun _ => [[], []]) =
      ([], { Targets := ["localhost"], OpenPorts := 0, TotalPorts := 0,
             Workers := 5, TimeoutSeconds := 1 }) :=
  empty_port_list_gives_trivial_scan 5 1 ["localhost"] _ _ (by decide)

lemma collectOpen_eq (rs : List ScanResult) : ∀ st : Nat × List ScanResult,
    collectOpen st rs =
      (st.1 + (rs.filter (fun r => r.Open)).length,
       st.2 ++ rs.filter (fun r => r.Open)) := by
  induction rs with
  | nil => intro st; simp [collectOpen]
  | cons r rs ih =>
    intro st
    have hstep : collectOpen st (r :: rs) =
        collectOpen (if r.Open then (st.1 + 1, st.2 ++ [r]) else st) rs := by
      simp [collectOpen]
    rw [hstep, ih, List.filter_cons]
    cases h : r.Open <;> simp [h, Nat.add_assoc, Nat.add_comm 1]

lemma scanFold_spec (timeout : Nat) (net : String → Nat → Nat → DialOutcome)
    (assign : String → List (List Nat)) (targets : List String) :
    ∀ st : Nat × List ScanResult,
    targets.foldl (fun st target =>
        collectOpen st (targetResults timeout net target (assign target))) st =
      (st.1 + (targets.map (fun t =>
          ((targetResults timeout net t (assign t)).filter (fun r => r.Open)).length)).sum,
       st.2 ++ (targets.map (fun t =>
          (targetResults timeout net t (assign t)).filter (fun r => r.Open))).flatten) := by
  induction targets with
  | nil => intro st; simp
  | cons a l ih =>
    intro st
    rw [List.foldl_cons, collectOpen_eq, ih]
    simp [Nat.add_assoc, List.append_assoc]

/-- C9: the summary's `TotalPorts` is always the length of the single shared
port list, not multiplied by the number of targets, while `OpenPorts` is the
sum over all targets of that target's open-result count; in particular a
two-target scan of the one-port list `[80]` against a network where that
port is open everywhere reports `OpenPorts = 2 > 1 = TotalPorts`. -/
theorem summary_total_is_port_count_but_open_accumulates :
    (∀ (workers timeout : Nat) (targets : List String) (ports : List Nat)
        (net : String → Nat → Nat → DialOutcome) (assign : String → List (List Nat)),
      ((runScan workers timeout targets ports net assign).2).TotalPorts = ports.length ∧
      ((runScan workers timeout targets ports net assign).2).OpenPorts =
        (targets.map (fun t =>
          ((targetResults timeout net t (assign t)).filter (fun r => r.Open)).length)).sum) ∧
    (((runScan 1 1 ["a", "b"] [80] (fun _ _ _ => DialOutcome.ok [])
        (fun _ => [[80]])).2).OpenPorts = 2 ∧
     ((runScan 1 1 ["a", "b"] [80] (fun _ _ _ => DialOutcome.ok [])
        (fun _ => [[80]])).2).TotalPorts = 1) := by
  constructor
  · intro workers timeout targets ports net assign
    constructor
    · rfl
    · show (targets.foldl (fun st target =>
          collectOpen st (targetResults timeout net target (assign target))) (0, [])).1 = _
      rw [scanFold_spec]
      simp
  · exact ⟨by decide, by decide⟩

lemma runSched_cons_none (seqs : List (List Ev)) (i : Nat) (rest : List Nat)
    (h : seqs.get? i = none) :
    runSched seqs (i :: rest) = runSched seqs rest := by
  have h2 : seqs[i]? = none := by simpa using h
  simp [runSched, h2]

lemma runSched_cons_nil (seqs : List (List Ev)) (i : Nat) (rest : List Nat)
    (h : seqs.get? i = some []) :
    runSched seqs (i :: rest) = runSched seqs rest := by
  have h2 : seqs[i]? = some [] := by simpa using h
  simp [runSched, h2]

lemma runSched_cons_step (seqs : List (List Ev)) (i : Nat) (rest : List Nat)
    (e : Ev) (s : List Ev) (h : seqs.get? i = some (e :: s)) :
    runSched seqs (i :: rest) = e :: runSched (seqs.set i s) rest := by
  have h2 : seqs[i]? = some (e :: s) := by simpa using h
  simp [runSched, h2]

lemma stepSched_cons_none (seqs : List (List Ev)) (i : Nat) (rest : List Nat)
    (h : seqs.get? i = none) :
    stepSched seqs (i :: rest) = stepSched seqs rest := by
  have h2 : seqs[i]? = none := by simpa using h
  simp [stepSched, h2]

lemma stepSched_cons_nil (seqs : List (List Ev)) (i : Nat) (rest : List Nat)
    (h : seqs.get? i = some []) :
    stepSched seqs (i :: rest) = stepSched seqs rest := by
  have h2 : seqs[i]? = some [] := by simpa using h
  simp [stepSched, h2]

lemma stepSched_cons_step (seqs : List (List Ev)) (i : Nat) (rest : List Nat)
    (e : Ev) (s : List Ev) (h : seqs.get? i = some (e :: s)) :
    stepSched seqs (i :: rest) = stepSched (seqs.set i s) rest := by
  have h2 : seqs[i]? = some (e :: s) := by simpa using h
  simp [stepSched, h2]

lemma runSched_append (s₁ : List Nat) : ∀ (seqs : List (List Ev)) (s₂ : List Nat),
    runSched seqs (s₁ ++ s₂) =
      runSched seqs s₁ ++ runSched (stepSched seqs s₁) s₂ := by
  induction s₁ with
  | nil => intro seqs s₂; rfl
  | cons i rest ih =>
    intro seqs s₂
    rw [List.cons_append]
    cases hg : seqs.get? i with
    | none =>
      rw [runSched_cons_none _ _ _ hg, runSched_cons_none _ _ _ hg,
        stepSched_cons_none _ _ _ hg, ih]
    | some val =>
      cases val with
      | nil =>
        rw [runSched_cons_nil _ _ _ hg, runSched_cons_nil _ _ _ hg,
          stepSched_cons_nil _ _ _ hg, ih]
      | cons e s =>
        rw [runSched_cons_step _ _ _ _ _ hg, runSched_cons_step _ _ _ _ _ hg,
          stepSched_cons_step _ _ _ _ _ hg, ih, List.cons_append]

lemma sum_map_set (f : List Ev → Nat) : ∀ (seqs : List (List Ev)) (i : Nat)
    (a b : List Ev), seqs.get? i = some a →
    ((seqs.set i b).map f).sum + f a = (seqs.map f).sum + f b := by
  intro seqs
  induction seqs with
  | nil => intro i a b h; simp at h
  | cons s seqs ih =>
    intro i a b h
    cases i with
    | zero =>
      have hs : s = a := by simpa using h
      subst hs
      simp [List.set]
      omega
    | succ i =>
      have h' : seqs.get? i = some a := by simpa using h
      have hih := ih i a b h'
      show ((s :: seqs.set i b).map f).sum + f a = ((s :: seqs).map f).sum + f b
      simp only [List.map_cons, List.sum_cons]
      omega

lemma isPend_evBlocks (n : Nat) : isPend (evBlocks n) = false := by
  cases n <;> rfl

lemma count_inc_evBlocks : ∀ n, (evBlocks n).count Ev.inc = n := by
  intro n
  induction n with
  | zero => rfl
  | succ n ih => simp [evBlocks, List.count_cons, ih]

lemma wfRem_shape {e : Ev} {s : List Ev} (h : wfRem (e :: s)) :
    (e = Ev.pub ∧ ∃ m, s = Ev.inc :: evBlocks m) ∨
    (e = Ev.inc ∧ ∃ m, s = evBlocks m) := by
  rcases h with ⟨n, hn⟩ | ⟨n, hn⟩
  · cases n with
    | zero => simp [evBlocks] at hn
    | succ m =>
      rw [evBlocks, List.cons.injEq] at hn
      exact Or.inl ⟨hn.1, m, hn.2⟩
  · rw [List.cons.injEq] at hn
    exact Or.inr ⟨hn.1, n, hn.2⟩

lemma pendCount_set (seqs : List (List Ev)) (i : Nat) (a b : List Ev)
    (h : seqs.get? i = some a) :
    pendCount (seqs.set i b) + (if isPend a then 1 else 0) =
      pendCount seqs + (if isPend b then 1 else 0) :=
  sum_map_set (fun s => if isPend s then 1 else 0) seqs i a b h

lemma runSched_inc_le_pub_aux (sched : List Nat) : ∀ (seqs : List (List Ev)),
    (∀ s ∈ seqs, wfRem s) →
    (runSched seqs sched).count Ev.inc ≤
      (runSched seqs sched).count Ev.pub + pendCount seqs := by
  induction sched with
  | nil => intro seqs _; simp [runSched]
  | cons i rest ih =>
    intro seqs hwf
    cases hg : seqs.get? i with
    | none =>
      rw [runSched_cons_none _ _ _ hg]
      exact ih seqs hwf
    | some val =>
      cases val with
      | nil =>
        rw [runSched_cons_nil _ _ _ hg]
        exact ih seqs hwf
      | cons e s =>
        rw [runSched_cons_step _ _ _ _ _ hg]
        have hmem : (e :: s) ∈ seqs := List.get?_mem hg
        have hwf2 : ∀ x ∈ seqs.set i s, wfRem x := by
          intro x hx
          rcases List.mem_or_eq_of_mem_set hx with hx2 | rfl
          · exact hwf x hx2
          · rcases wfRem_shape (hwf _ hmem) with ⟨_, m, rfl⟩ | ⟨_, m, rfl⟩
            · exact Or.inr ⟨m, rfl⟩
            · exact Or.inl ⟨m, rfl⟩
        have hih := ih (seqs.set i s) hwf2
        rcases wfRem_shape (hwf _ hmem) with ⟨rfl, m, rfl⟩ | ⟨rfl, m, rfl⟩
        · -- the worker publishes: its pending list gains an owed increment
          have hp := pendCount_set seqs i _ (Ev.inc :: evBlocks m) hg
          rw [show isPend (Ev.pub :: Ev.inc :: evBlocks m) = false from rfl,
            show isPend (Ev.inc :: evBlocks m) = true from rfl] at hp
          simp at hp
          simp [List.count_cons]
          omega
        · -- the worker increments: one owed increment is paid
          have hp := pendCount_set seqs i _ (evBlocks m) hg
          rw [show isPend (Ev.inc :: evBlocks m) = true from rfl,
            isPend_evBlocks] at hp
          simp at hp
          simp [List.count_cons]
          omega

lemma runSched_count_le_aux (e : Ev) (sched : List Nat) : ∀ seqs : List (List Ev),
    (runSched seqs sched).count e ≤ (seqs.map (fun s => s.count e)).sum := by
  induction sched with
  | nil => intro seqs; simp [runSched]
  | cons i rest ih =>
    intro seqs
    cases hg : seqs.get? i with
    | none =>
      rw [runSched_cons_none _ _ _ hg]
      exact ih seqs
    | some val =>
      cases val with
      | nil =>
        rw [runSched_cons_nil _ _ _ hg]
        exact ih seqs
      | cons e2 s =>
        rw [runSched_cons_step _ _ _ _ _ hg]
        have hsum := sum_map_set (fun s => s.count e) seqs i (e2 :: s) s hg
        have hih := ih (seqs.set i s)
        simp only [List.count_cons] at hsum ⊢
        omega

lemma pendCount_map_workerEvents (A : List (List Nat)) :
    pendCount (A.map workerEvents) = 0 := by
  rw [pendCount, List.map_map]
  apply List.sum_eq_zero
  intro x hx
  rw [List.mem_map] at hx
  obtain ⟨ps, _, rfl⟩ := hx
  simp [Function.comp_def, workerEvents, isPend_evBlocks]

lemma sum_count_inc_workerEvents (A : List (List Nat)) :
    ((A.map workerEvents).map (fun s => s.count Ev.inc)).sum = A.flatten.length := by
  rw [List.map_map, List.length_flatten]
  congr 1
  apply List.map_congr_left
  intro ps _
  simp [Function.comp_def, workerEvents, count_inc_evBlocks]

/-- C7: within one target's scan, with each worker emitting a publish event
(`results <- result`, line 46 of `main.go`) followed by an increment event
(the mutex-guarded `progress++`, lines 47-49) per port it handles, every
interleaving the scheduler can produce keeps the counter (the number of
executed increments) at or below the number of published results, at or
below the total task count, and non-decreasing as the schedule extends. -/
theorem completion_counter_never_ahead (ports : List Nat) (A : List (List Nat))
    (sched extra : List Nat) (hperm : A.flatten.Perm ports) :
    ((runSched (A.map workerEvents) sched).count Ev.inc ≤
        (runSched (A.map workerEvents) sched).count Ev.pub) ∧
    ((runSched (A.map workerEvents) sched).count Ev.inc ≤ ports.length) ∧
    ((runSched (A.map workerEvents) sched).count Ev.inc ≤
        (runSched (A.map workerEvents) (sched ++ extra)).count Ev.inc) := by
  refine ⟨?_, ?_, ?_⟩
  · have h := runSched_inc_le_pub_aux sched (A.map workerEvents) ?_
    · rwa [pendCount_map_workerEvents, Nat.add_zero] at h
    · intro s hs
      rw [List.mem_map] at hs
      obtain ⟨ps, _, rfl⟩ := hs
      exact Or.inl ⟨ps.length, rfl⟩
  · have h := runSched_count_le_aux Ev.inc sched (A.map workerEvents)
    rw [sum_count_inc_workerEvents] at h
    exact h.trans (le_of_eq hperm.length_eq)
  · rw [runSched_append, List.count_append]
    exact Nat.le_add_right _ _

theorem completion_counter_never_ahead_witness :
    ((runSched ([[1, 2], [3]].map workerEvents) [0, 1, 0, 1, 0, 0]).count Ev.inc ≤
        (runSched ([[1, 2], [3]].map workerEvents) [0, 1, 0, 1, 0, 0]).count Ev.pub) ∧
    ((runSched ([[1, 2], [3]].map workerEvents) [0, 1, 0, 1, 0, 0]).count Ev.inc ≤ 3) ∧
    ((runSched ([[1, 2], [3]].map workerEvents) [0, 1, 0, 1, 0, 0]).count Ev.inc ≤
        (runSched ([[1, 2], [3]].map workerEvents) ([0, 1, 0, 1, 0, 0] ++ [1])).count Ev.inc) :=
  completion_counter_never_ahead [1, 2, 3] [[1, 2], [3]] [0, 1, 0, 1, 0, 0] [1] (by decide)

lemma trackerLoop_first_hit (total : Nat) (f : Nat → Nat) :
    ∀ (fuel i k : Nat), i ≤ k → k < i + fuel → total ≤ f k →
      ∃ j, i ≤ j ∧ j ≤ k ∧ trackerLoop total f fuel i = some j ∧ total ≤ f j ∧
        ∀ m, i ≤ m → m < j → f m < total := by
  intro fuel
  induction fuel with
  | zero => intro i k h1 h2 _; omega
  | succ fuel ih =>
    intro i k h1 h2 hk
    by_cases hi : total ≤ f i
    · exact ⟨i, Nat.le_refl i, h1, by simp [trackerLoop, hi], hi,
        fun m hm1 hm2 => absurd (Nat.lt_of_le_of_lt hm1 hm2) (Nat.lt_irrefl i)⟩
    · have hik : i ≠ k := fun h => hi (h ▸ hk)
      obtain ⟨j, hj1, hj2, hj3, hj4, hj5⟩ := ih (i + 1) k (by omega) (by omega) hk
      refine ⟨j, by omega, hj2, ?_, hj4, ?_⟩
      · rw [trackerLoop, if_neg hi]
        exact hj3
      · intro m hm1 hm2
        rcases Nat.eq_or_lt_of_le hm1 with heq | hlt
        · exact heq ▸ Nat.lt_of_not_le hi
        · exact hj5 m hlt hm2

/-- C3: the progress-monitor loop samples the mutex-guarded counter once per
iteration (`f i` is the i-th sample) and returns at exactly the first sample
that reaches the task total: once some sample reaches the total — in
particular once the scan has completed, since the counter then stays at the
total — the loop terminates at the earliest such sample, every earlier
sample having been below the total; and when the scan finished before the
monitor's first look (`total ≤ f 0`), the monitor makes that one final
observation and exits at index 0.  The loop writes no scan state, so its
progress or absence never feeds back into the scan. -/
theorem progress_monitor_stops_at_completion (total fuel k : Nat) (f : Nat → Nat)
    (hk : total ≤ f k) (hfuel : k < fuel) :
    (∃ j, j ≤ k ∧ trackerLoop total f fuel 0 = some j ∧ total ≤ f j ∧
        ∀ m, m < j → f m < total) ∧
    (total ≤ f 0 → trackerLoop total f fuel 0 = some 0) := by
  constructor
  · obtain ⟨j, _, hj2, hj3, hj4, hj5⟩ :=
      trackerLoop_first_hit total f fuel 0 k (Nat.zero_le k) (by omega) hk
    exact ⟨j, hj2, hj3, hj4, fun m hm => hj5 m (Nat.zero_le m) hm⟩
  · intro h0
    cases fuel with
    | zero => omega
    | succ fuel => simp [trackerLoop, h0]

theorem progress_monitor_stops_at_completion_witness :
    (∃ j, j ≤ 3 ∧ trackerLoop 3 (fun i => i) 5 0 = some j ∧ 3 ≤ j ∧
        ∀ m, m < j → m < 3) ∧
    (3 ≤ 0 → trackerLoop 3 (fun i => i) 5 0 = some 0) :=
  progress_monitor_stops_at_completion 3 5 3 (fun i => i) (by decide) (by decide)
